import Mathlib

/-!
Shallow embedding of the snake game engine from `src/game.rs` and the
driver loop of `src/main.rs`, together with theorems checking the
natural-language specification against the code.

Modelling conventions:
* `u8` fields are embedded as `Nat`, with an explicit `% 256` (`u8cast`)
  at every place the source performs a cast `as u8` or a `u8` addition
  that its `usize`/`i64` guards do not protect from wrapping.
* `VecDeque` is a `List` whose head is the deque front, so
  `push_front` is `List.cons`, `front()` is `List.head?`, and
  `pop_back` drops the last element.
* Every `unwrap()` is modelled by `Option`, `none` standing for the panic.
* The random `choose` in `update_food_coord` is modelled by an arbitrary
  index `k : Nat` reduced modulo the number of candidate cells.
-/

/-- A cell of the square grid; the source stores `x` and `y` as `u8`. -/
structure Coordinate where
  x : Nat
  y : Nat
deriving DecidableEq, Repr

/-- The cast `n as u8` of the source. -/
def u8cast (n : Nat) : Nat := n % 256

/-- The four headings of `Direction` in `game.rs`. -/
inductive Direction where
  | UP
  | DOWN
  | LEFT
  | RIGHT
deriving DecidableEq, Repr

/-- `Direction::get_opposite`. -/
def Direction.get_opposite : Direction → Direction
  | Direction.UP => Direction.DOWN
  | Direction.DOWN => Direction.UP
  | Direction.LEFT => Direction.RIGHT
  | Direction.RIGHT => Direction.LEFT

/-- The `Snake` struct: a heading and the body deque (front = head). -/
structure Snake where
  direction : Direction
  body : List Coordinate
deriving DecidableEq, Repr

/-- `Snake::new`: `push_back (0,0)` then `push_back (1,0)` onto an empty
deque, so the front of the deque is `(0,0)`; heading `LEFT`. The
`board_size` argument only sizes the deque capacity in the source. -/
def Snake.new (_board_size : Nat) : Snake :=
  { direction := Direction.LEFT
    body := [⟨0, 0⟩, ⟨1, 0⟩] }

/-- `Snake::get_head`: `body.front().unwrap()`; `none` models the panic
on an empty body. -/
def Snake.get_head (s : Snake) : Option Coordinate := s.body.head?

/-- `Snake::rm_tail`: `body.pop_back().unwrap()`; `none` models the panic
on an empty body. -/
def Snake.rm_tail (s : Snake) : Option Snake :=
  if s.body.isEmpty then none else some { s with body := s.body.dropLast }

/-- The `Game` struct of `game.rs`. -/
structure Game where
  board_size : Nat
  snake : Snake
  food_pos : Coordinate
  freeze_time_ms : Nat
deriving DecidableEq, Repr

/-- `Game::new`: fresh snake, food at `(0,1)`, debounce 200 ms. -/
def Game.new (board_size : Nat) : Game :=
  { board_size := board_size
    snake := Snake.new board_size
    food_pos := ⟨0, 1⟩
    freeze_time_ms := 200 }

/-- The nested loops of `Game::update_food_coord`: every cell
`(x as u8, y as u8)` for `x, y` in `[0, board_size)` that is not contained
in the snake body, in loop order (outer `x`, inner `y`). -/
def availablePositions (board_size : Nat) (body : List Coordinate) : List Coordinate :=
  (List.range board_size).flatMap fun x =>
    (List.range board_size).filterMap fun y =>
      let coord : Coordinate := ⟨u8cast x, u8cast y⟩
      if coord ∈ body then none else some coord

/-- `Game::update_food_coord`, the random `choose` replaced by the index
`k % candidates.length`; `none` models the `unwrap` panic when no cell is
free. -/
def Game.update_food_coord (g : Game) (k : Nat) : Option Game :=
  let avail := availablePositions g.board_size g.snake.body
  (avail[k % avail.length]?).map fun c => { g with food_pos := c }

/-- `Game::change_snake_dir`: unconditionally overwrites the heading. -/
def Game.change_snake_dir (g : Game) (new_dir : Direction) : Game :=
  { g with snake := { g.snake with direction := new_dir } }

/-- `Game::get_current_dir`. -/
def Game.get_current_dir (g : Game) : Direction := g.snake.direction

/-- The observable outcome of one `Game::step` call: the source returns
`false` after printing one of three distinct messages (out of bounds,
collision, win) and `true` to continue. -/
inductive Outcome where
  | Continue
  | LostOutOfBounds
  | LostCollision
  | Won
deriving DecidableEq, Repr

/-- The guarded match on `snake.direction` in `Game::step` computing the
next head cell; `none` is the default arm (out of bounds). The guards are
evaluated on exact integers (`usize` / `i64` in the source); the `u8`
increment itself wraps modulo 256 when a guard with `board_size > 256`
lets `255 + 1` through. -/
def shift_coord (board_size : Nat) (d : Direction) (c : Coordinate) : Option Coordinate :=
  match d with
  | Direction.UP => if c.y + 1 < board_size then some ⟨c.x, u8cast (c.y + 1)⟩ else none
  | Direction.DOWN => if 1 ≤ c.y then some ⟨c.x, c.y - 1⟩ else none
  | Direction.LEFT => if 1 ≤ c.x then some ⟨c.x - 1, c.y⟩ else none
  | Direction.RIGHT => if c.x + 1 < board_size then some ⟨u8cast (c.x + 1), c.y⟩ else none

/-- `Game::step`: one tick. `k` drives the random food pick; `none`
models a panic (`get_head`/`rm_tail` on an empty body, or the food
`choose(..).unwrap()` with no free cell). -/
def Game.step (g : Game) (k : Nat) : Option (Outcome × Game) :=
  match g.snake.get_head with
  | none => none
  | some head =>
    match shift_coord g.board_size g.snake.direction head with
    | none => some (Outcome.LostOutOfBounds, g)
    | some next_coord =>
      if next_coord ∈ g.snake.body then some (Outcome.LostCollision, g)
      else if next_coord = g.food_pos then
        if g.board_size * g.board_size ≤ g.snake.body.length + 1 then
          some (Outcome.Won, g)
        else
          let grown : Game := { g with snake := { g.snake with body := g.food_pos :: g.snake.body } }
          (grown.update_food_coord k).map fun g2 => (Outcome.Continue, g2)
      else
        match g.snake.rm_tail with
        | none => none
        | some s1 => some (Outcome.Continue, { g with snake := { s1 with body := next_coord :: s1.body } })

/-- The input dispatch of the driver loop in `main`: a direction whose
opposite equals the current heading is rejected — the game is returned
unchanged and no tick runs (outcome `none`); otherwise the heading is
overwritten via `change_snake_dir` and one `step` runs. -/
def main_handle_key (g : Game) (new_dir : Direction) (k : Nat) : Option (Game × Option Outcome) :=
  if new_dir.get_opposite = g.get_current_dir then some (g, none)
  else (Game.step (g.change_snake_dir new_dir) k).map fun p => (p.2, some p.1)

/-- The food invariant of the data model: the food lies on the board and
coincides with no body segment. -/
def FoodInv (g : Game) : Prop :=
  g.food_pos.x < g.board_size ∧ g.food_pos.y < g.board_size ∧ g.food_pos ∉ g.snake.body

instance (g : Game) : Decidable (FoodInv g) := by
  unfold FoodInv; infer_instance

/-- Game states reachable through the driver loop: construction with any
board size, direction changes, and completed `step` calls. -/
inductive Reachable : Game → Prop where
  | init (bs : Nat) : Reachable (Game.new bs)
  | tick (g g2 : Game) (k : Nat) (r : Outcome) (hg : Reachable g)
      (hs : Game.step g k = some (r, g2)) : Reachable g2
  | dir (g : Game) (d : Direction) (hg : Reachable g) : Reachable (g.change_snake_dir d)

theorem body_ne_nil_of_get_head {s : Snake} {head : Coordinate}
    (hh : s.get_head = some head) : s.body ≠ [] := by
  intro hnil
  rw [Snake.get_head, hnil] at hh
  exact Option.noConfusion hh

theorem rm_tail_of_ne_nil {s : Snake} (h : s.body ≠ []) :
    s.rm_tail = some { s with body := s.body.dropLast } := by
  rw [Snake.rm_tail, if_neg]
  simp [List.isEmpty_iff, h]

/-- The out-of-bounds branch of `step`: default arm taken, message printed,
`false` returned, state untouched. -/
theorem step_of_oob (g : Game) (k : Nat) (head : Coordinate)
    (hh : g.snake.get_head = some head)
    (hs : shift_coord g.board_size g.snake.direction head = none) :
    Game.step g k = some (Outcome.LostOutOfBounds, g) := by
  simp only [Game.step, hh, hs]

/-- The self-collision branch of `step`: the contains check fires, state
untouched. -/
theorem step_of_collision (g : Game) (k : Nat) (head next : Coordinate)
    (hh : g.snake.get_head = some head)
    (hs : shift_coord g.board_size g.snake.direction head = some next)
    (hc : next ∈ g.snake.body) :
    Game.step g k = some (Outcome.LostCollision, g) := by
  simp only [Game.step, hh, hs]
  simp only [if_pos hc]

/-- The winning branch of `step`: food eaten while one more segment would
fill the board; no mutation. -/
theorem step_of_won (g : Game) (k : Nat) (head next : Coordinate)
    (hh : g.snake.get_head = some head)
    (hs : shift_coord g.board_size g.snake.direction head = some next)
    (hf : next = g.food_pos)
    (hnb : g.food_pos ∉ g.snake.body)
    (hw : g.board_size * g.board_size ≤ g.snake.body.length + 1) :
    Game.step g k = some (Outcome.Won, g) := by
  simp only [Game.step, hh, hs]
  have hnc : next ∉ g.snake.body := hf ▸ hnb
  simp only [if_neg hnc, if_pos hf, if_pos hw]

/-- The sliding branch of `step`: no food eaten, the tail is removed and
the next cell prepended. -/
theorem step_of_continue_no_eat (g : Game) (k : Nat) (head next : Coordinate)
    (hh : g.snake.get_head = some head)
    (hs : shift_coord g.board_size g.snake.direction head = some next)
    (hc : next ∉ g.snake.body)
    (hf : next ≠ g.food_pos) :
    Game.step g k = some (Outcome.Continue,
      { g with snake := { direction := g.snake.direction,
                          body := next :: g.snake.body.dropLast } }) := by
  simp only [Game.step, hh, hs]
  simp only [if_neg hc, if_neg hf]
  rw [rm_tail_of_ne_nil (body_ne_nil_of_get_head hh)]

/-- The growing branch of `step`: food eaten below the winning size, the
food cell is prepended and a fresh food cell is drawn from the free cells
of the post-growth body. -/
theorem step_of_continue_eat (g : Game) (k : Nat) (head next : Coordinate)
    (hh : g.snake.get_head = some head)
    (hs : shift_coord g.board_size g.snake.direction head = some next)
    (hf : next = g.food_pos)
    (hnb : g.food_pos ∉ g.snake.body)
    (hno : g.snake.body.length + 1 < g.board_size * g.board_size)
    (havail : availablePositions g.board_size (g.food_pos :: g.snake.body) ≠ []) :
    ∃ c, Game.step g k = some (Outcome.Continue,
        { g with snake := { g.snake with body := g.food_pos :: g.snake.body },
                 food_pos := c })
      ∧ c ∈ availablePositions g.board_size (g.food_pos :: g.snake.body) := by
  simp only [Game.step, hh, hs]
  have hnc : next ∉ g.snake.body := hf ▸ hnb
  simp only [if_neg hnc, if_pos hf, if_neg (not_le.mpr hno)]
  rw [Game.update_food_coord]
  set avail := availablePositions g.board_size (g.food_pos :: g.snake.body) with ha
  have hlen : 0 < avail.length := List.length_pos.mpr havail
  have hi : k % avail.length < avail.length := Nat.mod_lt _ hlen
  refine ⟨avail[k % avail.length], ?_, List.getElem_mem hi⟩
  rw [List.getElem?_eq_getElem hi]
  rfl

theorem mem_availablePositions {bs : Nat} {body : List Coordinate} {c : Coordinate} :
    c ∈ availablePositions bs body ↔
      (∃ x, x < bs ∧ ∃ y, y < bs ∧ c = ⟨u8cast x, u8cast y⟩) ∧ c ∉ body := by
  unfold availablePositions
  simp only [List.mem_flatMap, List.mem_filterMap, List.mem_range]
  constructor
  · rintro ⟨x, hx, y, hy, hif⟩
    by_cases hmem : (⟨u8cast x, u8cast y⟩ : Coordinate) ∈ body
    · rw [if_pos hmem] at hif
      exact Option.noConfusion hif
    · rw [if_neg hmem] at hif
      obtain rfl := (Option.some.injEq _ _).mp hif
      exact ⟨⟨x, hx, y, hy, rfl⟩, hmem⟩
  · rintro ⟨⟨x, hx, y, hy, rfl⟩, hmem⟩
    exact ⟨x, hx, y, hy, by rw [if_neg hmem]⟩

/-- Any cell produced by the food-placement loops lies on the board (a
reduced coordinate never exceeds the loop variable) and misses the body. -/
theorem availablePositions_sound {bs : Nat} {body : List Coordinate} {c : Coordinate}
    (h : c ∈ availablePositions bs body) :
    c.x < bs ∧ c.y < bs ∧ c ∉ body := by
  obtain ⟨⟨x, hx, y, hy, rfl⟩, hmem⟩ := mem_availablePositions.mp h
  exact ⟨lt_of_le_of_lt (Nat.mod_le x 256) hx, lt_of_le_of_lt (Nat.mod_le y 256) hy, hmem⟩

/-- Pigeonhole: on a board of side at most 256 a body covering fewer than
`board_size * board_size` cells leaves at least one free cell, so the
`choose(..).unwrap()` of `update_food_coord` cannot fail. -/
theorem availablePositions_ne_nil {bs : Nat} {body : List Coordinate}
    (hbs : bs ≤ 256) (hlen : body.length < bs * bs) :
    availablePositions bs body ≠ [] := by
  intro hnil
  have hall : ∀ x, x < bs → ∀ y, y < bs → (⟨x, y⟩ : Coordinate) ∈ body := by
    intro x hx y hy
    by_contra hmem
    have hx256 : u8cast x = x := Nat.mod_eq_of_lt (lt_of_lt_of_le hx hbs)
    have hy256 : u8cast y = y := Nat.mod_eq_of_lt (lt_of_lt_of_le hy hbs)
    have hin : (⟨x, y⟩ : Coordinate) ∈ availablePositions bs body := by
      rw [mem_availablePositions]
      refine ⟨⟨x, hx, y, hy, by rw [hx256, hy256]⟩, hmem⟩
    rw [hnil] at hin
    exact (List.not_mem_nil _) hin
  have hcard : (Finset.range bs ×ˢ Finset.range bs).card ≤ body.toFinset.card := by
    apply Finset.card_le_card_of_injOn (fun p => (⟨p.1, p.2⟩ : Coordinate))
    · intro p hp
      rw [Finset.mem_product, Finset.mem_range, Finset.mem_range] at hp
      rw [List.mem_toFinset]
      exact hall p.1 hp.1 p.2 hp.2
    · intro p _ q _ hpq
      exact Prod.ext (congrArg Coordinate.x hpq) (congrArg Coordinate.y hpq)
  rw [Finset.card_product, Finset.card_range] at hcard
  have := le_trans hcard (List.toFinset_card_le body)
  omega

/-- A completed `step` keeps the body length (slide, or a lost tick that
mutates nothing) or grows it by exactly one (an eaten food). -/
theorem step_length {g g2 : Game} {k : Nat} {r : Outcome}
    (h : Game.step g k = some (r, g2)) :
    g2.snake.body.length = g.snake.body.length ∨
      g2.snake.body.length = g.snake.body.length + 1 := by
  unfold Game.step at h
  cases hh : g.snake.get_head with
  | none => rw [hh] at h; exact Option.noConfusion h
  | some head =>
    rw [hh] at h
    simp only [] at h
    cases hs : shift_coord g.board_size g.snake.direction head with
    | none =>
      rw [hs] at h
      simp only [Option.some.injEq, Prod.mk.injEq] at h
      obtain ⟨-, rfl⟩ := h
      exact Or.inl rfl
    | some next =>
      rw [hs] at h
      simp only [] at h
      by_cases hc : next ∈ g.snake.body
      · rw [if_pos hc] at h
        simp only [Option.some.injEq, Prod.mk.injEq] at h
        obtain ⟨-, rfl⟩ := h
        exact Or.inl rfl
      · rw [if_neg hc] at h
        by_cases hf : next = g.food_pos
        · rw [if_pos hf] at h
          by_cases hw : g.board_size * g.board_size ≤ g.snake.body.length + 1
          · rw [if_pos hw] at h
            simp only [Option.some.injEq, Prod.mk.injEq] at h
            obtain ⟨-, rfl⟩ := h
            exact Or.inl rfl
          · rw [if_neg hw] at h
            rw [Game.update_food_coord] at h
            simp only [Option.map_map, Option.map_eq_some'] at h
            obtain ⟨c, -, hc2⟩ := h
            obtain ⟨-, rfl⟩ := Prod.mk.injEq .. |>.mp hc2
            exact Or.inr (by simp)
        · rw [if_neg hf] at h
          rw [rm_tail_of_ne_nil (body_ne_nil_of_get_head hh)] at h
          simp only [Option.some.injEq, Prod.mk.injEq] at h
          obtain ⟨-, rfl⟩ := h
          have hpos : 0 < g.snake.body.length :=
            List.length_pos.mpr (body_ne_nil_of_get_head hh)
          left
          simp only [List.length_cons, List.length_dropLast]
          omega

/-- Claim C1 as stated is false on the code: `Snake::new` pushes `(0,0)`
and then `(1,0)` to the back of the deque, so the front of the deque — the
head returned by `get_head` — is `(0,0)`, not `(1,0)`, and the body is not
`[(1,0), (0,0)]`. Concrete input: `board_size = 5`. -/
theorem C1_counterexample :
    ¬ ((Game.new 5).snake.get_head = some ⟨1, 0⟩ ∧
       (Game.new 5).snake.body = [⟨1, 0⟩, ⟨0, 0⟩] ∧
       (Game.new 5).snake.direction = Direction.LEFT) := by
  decide

/-- Claim C1 (amended): after constructing a `Game` (equivalently a
`Snake`) with any supported `board_size`, the snake's initial body has its
head (front of the deque) at `(0,0)` and its second, tail segment at
`(1,0)`, and the initial heading is `LEFT`. -/
theorem C1_initial_state (bs : Nat) :
    (Game.new bs).snake = Snake.new bs ∧
    (Game.new bs).snake.get_head = some ⟨0, 0⟩ ∧
    (Game.new bs).snake.body = [⟨0, 0⟩, ⟨1, 0⟩] ∧
    (Game.new bs).snake.direction = Direction.LEFT :=
  ⟨rfl, rfl, rfl, rfl⟩

/-- Claim C2: when the next head cell computed by `step` equals
`food_pos` (which, by the game's own invariant, lies outside the body) and
`snake.body.len() + 1 >= board_size^2`, the step reports the winning
outcome and returns the state exactly as it was: the snake is not grown
and body, direction and food are untouched. -/
theorem C2_step_won_no_mutation (g : Game) (k : Nat) (head next : Coordinate)
    (hh : g.snake.get_head = some head)
    (hs : shift_coord g.board_size g.snake.direction head = some next)
    (hf : next = g.food_pos)
    (hnb : g.food_pos ∉ g.snake.body)
    (hw : g.board_size * g.board_size ≤ g.snake.body.length + 1) :
    Game.step g k = some (Outcome.Won, g) :=
  step_of_won g k head next hh hs hf hnb hw

theorem C2_witness :
    Game.step ⟨2, ⟨Direction.RIGHT, [⟨0, 1⟩, ⟨0, 0⟩, ⟨1, 0⟩]⟩, ⟨1, 1⟩, 200⟩ 0 =
      some (Outcome.Won, ⟨2, ⟨Direction.RIGHT, [⟨0, 1⟩, ⟨0, 0⟩, ⟨1, 0⟩]⟩, ⟨1, 1⟩, 200⟩) :=
  C2_step_won_no_mutation ⟨2, ⟨Direction.RIGHT, [⟨0, 1⟩, ⟨0, 0⟩, ⟨1, 0⟩]⟩, ⟨1, 1⟩, 200⟩ 0
    ⟨0, 1⟩ ⟨1, 1⟩ (by decide) (by decide) (by decide) (by decide) (by decide)

/-- Claim C3: if the in-bounds next head cell is already anywhere in the
pre-move body — the not-yet-removed tail included — `step` reports the
self-collision loss and returns the state untouched. -/
theorem C3_step_collision_no_mutation (g : Game) (k : Nat) (head next : Coordinate)
    (hh : g.snake.get_head = some head)
    (hs : shift_coord g.board_size g.snake.direction head = some next)
    (hc : next ∈ g.snake.body) :
    Game.step g k = some (Outcome.LostCollision, g) :=
  step_of_collision g k head next hh hs hc

theorem C3_witness :
    Game.step ⟨5, ⟨Direction.LEFT, [⟨1, 0⟩, ⟨1, 1⟩, ⟨0, 1⟩, ⟨0, 0⟩]⟩, ⟨3, 3⟩, 200⟩ 0 =
      some (Outcome.LostCollision,
        ⟨5, ⟨Direction.LEFT, [⟨1, 0⟩, ⟨1, 1⟩, ⟨0, 1⟩, ⟨0, 0⟩]⟩, ⟨3, 3⟩, 200⟩) :=
  C3_step_collision_no_mutation
    ⟨5, ⟨Direction.LEFT, [⟨1, 0⟩, ⟨1, 1⟩, ⟨0, 1⟩, ⟨0, 0⟩]⟩, ⟨3, 3⟩, 200⟩ 0
    ⟨1, 0⟩ ⟨0, 0⟩ (by decide) (by decide) (by decide)

/-- Claim C4: when shifting the head one cell in the current direction
(`UP` raises `y`, `DOWN` lowers `y`, `LEFT` lowers `x`, `RIGHT` raises
`x`) would leave `[0, board_size)` — `y + 1 ≥ board_size` going up, `y = 0`
going down, `x = 0` going left, `x + 1 ≥ board_size` going right — `step`
reports the out-of-bounds loss and returns the state untouched. -/
theorem C4_step_out_of_bounds (g : Game) (k : Nat) (head : Coordinate)
    (hh : g.snake.get_head = some head)
    (hoob : (g.snake.direction = Direction.UP ∧ g.board_size ≤ head.y + 1) ∨
            (g.snake.direction = Direction.DOWN ∧ head.y = 0) ∨
            (g.snake.direction = Direction.LEFT ∧ head.x = 0) ∨
            (g.snake.direction = Direction.RIGHT ∧ g.board_size ≤ head.x + 1)) :
    Game.step g k = some (Outcome.LostOutOfBounds, g) := by
  apply step_of_oob g k head hh
  rcases hoob with ⟨hd, hb⟩ | ⟨hd, hb⟩ | ⟨hd, hb⟩ | ⟨hd, hb⟩ <;>
    simp only [shift_coord, hd, ite_eq_right_iff] <;>
    intro hcontra <;> omega

theorem C4_witness :
    Game.step (Game.new 5) 0 = some (Outcome.LostOutOfBounds, Game.new 5) :=
  C4_step_out_of_bounds (Game.new 5) 0 ⟨0, 0⟩ (by decide) (by decide)

/-- A `step` that returns `Continue` carries the food invariant from the
pre-state to the post-state. -/
theorem step_continue_preserves_foodinv {g g2 : Game} {k : Nat}
    (hinv : FoodInv g) (h : Game.step g k = some (Outcome.Continue, g2)) :
    FoodInv g2 := by
  unfold Game.step at h
  cases hh : g.snake.get_head with
  | none => rw [hh] at h; exact Option.noConfusion h
  | some head =>
    rw [hh] at h
    simp only [] at h
    cases hs : shift_coord g.board_size g.snake.direction head with
    | none => rw [hs] at h; simp at h
    | some next =>
      rw [hs] at h
      simp only [] at h
      by_cases hc : next ∈ g.snake.body
      · rw [if_pos hc] at h; simp at h
      · rw [if_neg hc] at h
        by_cases hf : next = g.food_pos
        · rw [if_pos hf] at h
          by_cases hw : g.board_size * g.board_size ≤ g.snake.body.length + 1
          · rw [if_pos hw] at h; simp at h
          · rw [if_neg hw] at h
            rw [Game.update_food_coord] at h
            simp only [Option.map_map, Option.map_eq_some'] at h
            obtain ⟨c, hcmem, heq⟩ := h
            simp only [Function.comp_apply, Prod.mk.injEq, true_and] at heq
            subst heq
            have hmem : c ∈ availablePositions g.board_size (g.food_pos :: g.snake.body) :=
              List.getElem?_mem hcmem
            obtain ⟨hx, hy, hnb⟩ := availablePositions_sound hmem
            exact ⟨hx, hy, hnb⟩
        · rw [if_neg hf] at h
          rw [rm_tail_of_ne_nil (body_ne_nil_of_get_head hh)] at h
          simp only [Option.some.injEq, Prod.mk.injEq, true_and] at h
          subst h
          refine ⟨hinv.1, hinv.2.1, ?_⟩
          intro hmem
          rcases List.mem_cons.mp hmem with heq | htl
          · exact hf (heq ▸ rfl)
          · exact hinv.2.2 ((List.dropLast_sublist _).subset htl)

/-- Claim C5: immediately after construction (any board of side at least
2) and immediately after every `step` that returns `Continue`, the food
lies on the board and equals no body coordinate; the replacement food is
drawn only from cells free of the post-growth body. -/
theorem C5_food_invariant :
    (∀ bs, 2 ≤ bs → FoodInv (Game.new bs)) ∧
    (∀ g k g2, FoodInv g → Game.step g k = some (Outcome.Continue, g2) → FoodInv g2) := by
  constructor
  · intro bs hbs
    refine ⟨?_, ?_, ?_⟩
    · show (0 : Nat) < bs
      omega
    · show (1 : Nat) < bs
      omega
    · show (⟨0, 1⟩ : Coordinate) ∉ [(⟨0, 0⟩ : Coordinate), ⟨1, 0⟩]
      decide
  · intro g k g2 hinv h
    exact step_continue_preserves_foodinv hinv h

theorem C5_witness :
    FoodInv (Game.new 5) ∧
    FoodInv ⟨5, ⟨Direction.UP, [⟨0, 1⟩, ⟨0, 0⟩, ⟨1, 0⟩]⟩, ⟨0, 2⟩, 200⟩ :=
  ⟨C5_food_invariant.1 5 (by decide),
   C5_food_invariant.2 ((Game.new 5).change_snake_dir Direction.UP) 0
     ⟨5, ⟨Direction.UP, [⟨0, 1⟩, ⟨0, 0⟩, ⟨1, 0⟩]⟩, ⟨0, 2⟩, 200⟩ (by decide) (by decide)⟩

/-- Claim C6: a `Continue` step onto a non-food cell slides the body —
tail removed, next cell prepended, length unchanged — and a non-winning
step onto the food cell returns `Continue` with the cell prepended, the
tail kept and the length exactly one larger. -/
theorem C6_step_length_change :
    (∀ g k (head next : Coordinate), g.snake.get_head = some head →
      shift_coord g.board_size g.snake.direction head = some next →
      next ∉ g.snake.body → next ≠ g.food_pos →
      ∃ g2, Game.step g k = some (Outcome.Continue, g2) ∧
        g2.snake.body = next :: g.snake.body.dropLast ∧
        g2.snake.body.length = g.snake.body.length) ∧
    (∀ g k (head next : Coordinate), g.board_size ≤ 256 →
      g.snake.get_head = some head →
      shift_coord g.board_size g.snake.direction head = some next →
      next = g.food_pos → g.food_pos ∉ g.snake.body →
      g.snake.body.length + 1 < g.board_size * g.board_size →
      ∃ g2, Game.step g k = some (Outcome.Continue, g2) ∧
        g2.snake.body = g.food_pos :: g.snake.body ∧
        g2.snake.body.length = g.snake.body.length + 1) := by
  constructor
  · intro g k head next hh hs hc hf
    refine ⟨_, step_of_continue_no_eat g k head next hh hs hc hf, rfl, ?_⟩
    have hpos : 0 < g.snake.body.length :=
      List.length_pos.mpr (body_ne_nil_of_get_head hh)
    simp only [List.length_cons, List.length_dropLast]
    omega
  · intro g k head next hbs hh hs hf hnb hno
    have havail : availablePositions g.board_size (g.food_pos :: g.snake.body) ≠ [] := by
      apply availablePositions_ne_nil hbs
      simpa using hno
    obtain ⟨c, hstep, hmem⟩ := step_of_continue_eat g k head next hh hs hf hnb hno havail
    exact ⟨_, hstep, rfl, by simp⟩

theorem C6_witness :
    (∃ g2, Game.step ⟨5, ⟨Direction.RIGHT, [⟨1, 0⟩, ⟨0, 0⟩]⟩, ⟨0, 1⟩, 200⟩ 0 =
        some (Outcome.Continue, g2) ∧
      g2.snake.body = [⟨2, 0⟩, ⟨1, 0⟩] ∧
      g2.snake.body.length = 2) ∧
    (∃ g2, Game.step ⟨5, ⟨Direction.UP, [⟨0, 0⟩, ⟨1, 0⟩]⟩, ⟨0, 1⟩, 200⟩ 0 =
        some (Outcome.Continue, g2) ∧
      g2.snake.body = [⟨0, 1⟩, ⟨0, 0⟩, ⟨1, 0⟩] ∧
      g2.snake.body.length = 3) :=
  ⟨C6_step_length_change.1 ⟨5, ⟨Direction.RIGHT, [⟨1, 0⟩, ⟨0, 0⟩]⟩, ⟨0, 1⟩, 200⟩ 0
      ⟨1, 0⟩ ⟨2, 0⟩ (by decide) (by decide) (by decide) (by decide),
   C6_step_length_change.2 ⟨5, ⟨Direction.UP, [⟨0, 0⟩, ⟨1, 0⟩]⟩, ⟨0, 1⟩, 200⟩ 0
      ⟨0, 0⟩ ⟨0, 1⟩ (by decide) (by decide) (by decide) (by decide) (by decide) (by decide)⟩

/-- Claim C7: the driver loop rejects a direction change whose opposite is
the current heading: with heading `DOWN`, the input `UP` leaves the game
(heading included) unchanged and runs no tick, as the `none` outcome
records. -/
theorem C7_opposite_rejected (g : Game) (k : Nat)
    (h : g.get_current_dir = Direction.DOWN) :
    main_handle_key g Direction.UP k = some (g, none) ∧
      g.get_current_dir = Direction.DOWN := by
  refine ⟨?_, h⟩
  rw [main_handle_key, if_pos]
  rw [h]
  rfl

theorem C7_witness :
    main_handle_key ((Game.new 5).change_snake_dir Direction.DOWN) Direction.UP 0 =
      some ((Game.new 5).change_snake_dir Direction.DOWN, none) ∧
      ((Game.new 5).change_snake_dir Direction.DOWN).get_current_dir = Direction.DOWN :=
  C7_opposite_rejected ((Game.new 5).change_snake_dir Direction.DOWN) 0 (by decide)

/-- Claim C8: on a board of size 5 with body `[(1,0), (0,0)]` (head in
front), heading `LEFT` and food anywhere but `(2,0)`, a
`change_snake_dir RIGHT` followed by one `step` continues with new head
`(2,0)` and body `[(2,0), (1,0)]` of length 2, the food untouched. -/
theorem C8_scenario (food : Coordinate) (k : Nat) (hf : food ≠ ⟨2, 0⟩) :
    Game.step
        (Game.change_snake_dir ⟨5, ⟨Direction.LEFT, [⟨1, 0⟩, ⟨0, 0⟩]⟩, food, 200⟩
          Direction.RIGHT) k =
      some (Outcome.Continue, ⟨5, ⟨Direction.RIGHT, [⟨2, 0⟩, ⟨1, 0⟩]⟩, food, 200⟩) := by
  have h := step_of_continue_no_eat
    (Game.change_snake_dir ⟨5, ⟨Direction.LEFT, [⟨1, 0⟩, ⟨0, 0⟩]⟩, food, 200⟩ Direction.RIGHT)
    k ⟨1, 0⟩ ⟨2, 0⟩ rfl rfl
    (show (⟨2, 0⟩ : Coordinate) ∉ [(⟨1, 0⟩ : Coordinate), ⟨0, 0⟩] by decide)
    (fun hc => hf hc.symm)
  exact h

theorem C8_witness :
    Game.step
        (Game.change_snake_dir ⟨5, ⟨Direction.LEFT, [⟨1, 0⟩, ⟨0, 0⟩]⟩, ⟨0, 1⟩, 200⟩
          Direction.RIGHT) 0 =
      some (Outcome.Continue, ⟨5, ⟨Direction.RIGHT, [⟨2, 0⟩, ⟨1, 0⟩]⟩, ⟨0, 1⟩, 200⟩) :=
  C8_scenario ⟨0, 1⟩ 0 (by decide)

/-- Claim C9: in every state reachable from construction by `step` and
`change_snake_dir` calls the body holds at least two segments — in
particular it is never empty, so the `unwrap` in `get_head` and the one in
`rm_tail` cannot fire (neither returns `none`), and any tick that removes
the tail does so at a body length strictly greater than 1. -/
theorem C9_body_never_empty (g : Game) (h : Reachable g) :
    2 ≤ g.snake.body.length ∧ g.snake.get_head ≠ none ∧ g.snake.rm_tail ≠ none := by
  have hlen : 2 ≤ g.snake.body.length := by
    induction h with
    | init bs => exact le_refl 2
    | tick g g2 k r hg hs ih =>
      rcases step_length hs with he | he <;> omega
    | dir g d hg ih => exact ih
  have hne : g.snake.body ≠ [] := by
    intro hnil
    rw [hnil] at hlen
    simp at hlen
  refine ⟨hlen, ?_, ?_⟩
  · rw [Snake.get_head]
    cases hb : g.snake.body with
    | nil => exact absurd hb hne
    | cons a l => simp
  · rw [rm_tail_of_ne_nil hne]
    simp

theorem C9_witness :
    2 ≤ (Game.new 5).snake.body.length ∧
      (Game.new 5).snake.get_head ≠ none ∧ (Game.new 5).snake.rm_tail ≠ none :=
  C9_body_never_empty (Game.new 5) (Reachable.init 5)

/-- Claim C10: coordinates are 8-bit while `board_size` is unbounded. For
`board_size ≤ 256` the arithmetic is exact: the cast reduced modulo 256 is
the identity below the board side, every in-bounds head shift lands on the
exact `±1` neighbour with no wrap, and the food-placement casts represent
distinct board cells faithfully. For `board_size > 256` the guarantees
fail: `256 as u8` truncates to `0`, the guarded `UP` shift from `y = 255`
on a 258-board wraps the head to `y = 0`, and the cell at `x = 256`
collides with the cell at `x = 0`. -/
theorem C10_u8_arithmetic :
    (∀ bs n, bs ≤ 256 → n < bs → u8cast n = n) ∧
    (∀ bs d (c next : Coordinate), bs ≤ 256 →
      shift_coord bs d c = some next →
      ((d = Direction.UP ∧ next = ⟨c.x, c.y + 1⟩ ∧ c.y + 1 < bs) ∨
       (d = Direction.DOWN ∧ next = ⟨c.x, c.y - 1⟩ ∧ 1 ≤ c.y) ∨
       (d = Direction.LEFT ∧ next = ⟨c.x - 1, c.y⟩ ∧ 1 ≤ c.x) ∨
       (d = Direction.RIGHT ∧ next = ⟨c.x + 1, c.y⟩ ∧ c.x + 1 < bs))) ∧
    (∀ bs x y x2 y2, bs ≤ 256 → x < bs → y < bs → x2 < bs → y2 < bs →
      (⟨u8cast x, u8cast y⟩ : Coordinate) = ⟨u8cast x2, u8cast y2⟩ → x = x2 ∧ y = y2) ∧
    (u8cast 256 ≠ 256 ∧ u8cast 256 = 0 ∧
      shift_coord 258 Direction.UP ⟨0, 255⟩ = some ⟨0, 0⟩ ∧
      (⟨u8cast 256, u8cast 0⟩ : Coordinate) = ⟨u8cast 0, u8cast 0⟩) := by
  have hcast : ∀ bs n, bs ≤ 256 → n < bs → u8cast n = n := fun bs n hbs hn =>
    Nat.mod_eq_of_lt (lt_of_lt_of_le hn hbs)
  refine ⟨hcast, ?_, ?_, by decide, by decide, by decide, by decide⟩
  · intro bs d c next hbs hs
    cases d with
    | UP =>
      left
      rw [shift_coord] at hs
      by_cases hg : c.y + 1 < bs
      · rw [if_pos hg] at hs
        obtain rfl := (Option.some.injEq _ _).mp hs
        exact ⟨rfl, by rw [hcast bs (c.y + 1) hbs hg], hg⟩
      · rw [if_neg hg] at hs
        exact Option.noConfusion hs
    | DOWN =>
      right; left
      rw [shift_coord] at hs
      by_cases hg : 1 ≤ c.y
      · rw [if_pos hg] at hs
        obtain rfl := (Option.some.injEq _ _).mp hs
        exact ⟨rfl, rfl, hg⟩
      · rw [if_neg hg] at hs
        exact Option.noConfusion hs
    | LEFT =>
      right; right; left
      rw [shift_coord] at hs
      by_cases hg : 1 ≤ c.x
      · rw [if_pos hg] at hs
        obtain rfl := (Option.some.injEq _ _).mp hs
        exact ⟨rfl, rfl, hg⟩
      · rw [if_neg hg] at hs
        exact Option.noConfusion hs
    | RIGHT =>
      right; right; right
      rw [shift_coord] at hs
      by_cases hg : c.x + 1 < bs
      · rw [if_pos hg] at hs
        obtain rfl := (Option.some.injEq _ _).mp hs
        exact ⟨rfl, by rw [hcast bs (c.x + 1) hbs hg], hg⟩
      · rw [if_neg hg] at hs
        exact Option.noConfusion hs
  · intro bs x y x2 y2 hbs hx hy hx2 hy2 heq
    have h1 : u8cast x = u8cast x2 := congrArg Coordinate.x heq
    have h2 : u8cast y = u8cast y2 := congrArg Coordinate.y heq
    rw [hcast bs x hbs hx, hcast bs x2 hbs hx2] at h1
    rw [hcast bs y hbs hy, hcast bs y2 hbs hy2] at h2
    exact ⟨h1, h2⟩

theorem C10_witness :
    u8cast 255 = 255 ∧ (1 = 1 ∧ 2 = 2) ∧
      ((Direction.RIGHT = Direction.UP ∧ (⟨2, 0⟩ : Coordinate) = ⟨1, 0 + 1⟩ ∧ 0 + 1 < 5) ∨
       (Direction.RIGHT = Direction.DOWN ∧ (⟨2, 0⟩ : Coordinate) = ⟨1, 0 - 1⟩ ∧ 1 ≤ 0) ∨
       (Direction.RIGHT = Direction.LEFT ∧ (⟨2, 0⟩ : Coordinate) = ⟨1 - 1, 0⟩ ∧ 1 ≤ 1) ∨
       (Direction.RIGHT = Direction.RIGHT ∧ (⟨2, 0⟩ : Coordinate) = ⟨1 + 1, 0⟩ ∧ 1 + 1 < 5)) :=
  ⟨C10_u8_arithmetic.1 256 255 (by decide) (by decide),
   C10_u8_arithmetic.2.2.1 5 1 2 1 2 (by decide) (by decide) (by decide) (by decide) (by decide) rfl,
   C10_u8_arithmetic.2.1 5 Direction.RIGHT ⟨1, 0⟩ ⟨2, 0⟩ (by decide) (by decide)⟩

